import Mathlib

/-!
Verification of the MWCP dispatcher (`mwcp/resources/dispatcher.py`).

The development shallowly embeds the dispatcher core: the `FileObject`
record, the `Dispatcher` state (FIFO buffer, currently-processing file,
knowledge base, reporter), the `_identify_file` generator, and the
`dispatch` loop with its per-descriptor failure handling
(`UnableToParse` versus ordinary exceptions, greedy versus non-greedy).

Modelling conventions:
* File objects live in an arena (`List FileRec`); an id is the index at
  which the record was appended, so ids are assigned in enqueue order.
* A parser class's `identify` classmethod is modelled as a pure
  predicate on the file record (its possible mutations of the file are
  not needed for the properties proved here); its `run` method is
  modelled as a behaviour function returning a `RunEffect`: the
  children it enqueued and knowledge-base writes it performed before
  returning or raising, plus an `Outcome` saying whether it returned
  normally, raised `UnableToParse`, or raised any other exception
  (which `dispatch` catches and logs).
* `collections.deque`: `appendleft` is `List.cons`, `pop` (from the
  right) takes `getLast` and keeps `dropLast`.
* The reporter is external to this file (only read/called by the
  dispatcher); it is modelled as the data the dispatcher touches: the
  set of already-output file names and a log of `output_file` calls.
* `DState.outputCalls` is a ghost event log recording each invocation
  of `FileObject.output` made by the dispatch loop; it exists only for
  stating observability properties and influences nothing.
-/

/-- Outcome of one `parser.run()` call as seen by `dispatch`'s
`try`/`except` blocks. -/
inductive Outcome where
  | ok            -- run() returned normally
  | unableToParse -- run() raised UnableToParse (mis-identification)
  | error         -- run() raised any other exception
  deriving DecidableEq, Repr

/-- Embedding of `FileObject`: the fields the dispatcher core reads and
writes.  `parser` and `parent` are stored as ids (parser class id /
file id in the arena) rather than object references. -/
structure FileRec where
  fileName : String
  fileData : List Nat
  description : Option String
  outputFile : Bool
  outputtedFile : Bool
  parent : Option Nat
  parser : Option Nat
  deriving DecidableEq, Repr

/-- Default record returned on out-of-range arena access (never hit on
the in-range accesses the theorems are about). -/
def dflFile : FileRec :=
  { fileName := "", fileData := [], description := none,
    outputFile := true, outputtedFile := false, parent := none, parser := none }

instance : Inhabited FileRec := ⟨dflFile⟩

/-- Arena lookup. -/
def getFile (files : List FileRec) (i : Nat) : FileRec :=
  (files[i]?).getD dflFile

/-- The reporter as seen from the dispatcher: `outputfiles` (names
already outputted) and the calls made to `output_file`.  A log entry is
`(data, filename, description)`. -/
structure Reporter where
  outputfiles : List String
  outputLog : List (List Nat × String × String)
  deriving DecidableEq, Repr

/-- `mwcp.Reporter.output_file`.  Modelled from the spec: the output
sink records the emission (its body is not under `src/`); the
dispatcher only needs that the call is observable. -/
def Reporter.output_file (r : Reporter) (data : List Nat) (filename : String)
    (description : String) : Reporter :=
  { r with outputLog := (data, filename, description) :: r.outputLog }

/-- `FileObject.output` (dispatcher.py lines 145-156): emit the file to
the reporter if allowed (`output_file` flag), not already outputted,
and the file name is not already among the reporter's output files;
only a successful emission sets `_outputted_file`. -/
def FileObject.output (fo : FileRec) (r : Reporter) : FileRec × Reporter :=
  if fo.outputFile && !fo.outputtedFile then
    if fo.fileName ∈ r.outputfiles then
      (fo, r)
    else
      ({ fo with outputtedFile := true },
       r.output_file fo.fileData fo.fileName (fo.description.getD ""))
  else
    (fo, r)

/-- `FileObject.parser_history` while-loop (lines 96-100): walk
`parent` links collecting each ancestor's `parser`.  The fuel argument
bounds the walk; since a parent's id is strictly smaller than its
child's id (parents are enqueued before their children), fuel equal to
the starting id is always enough. -/
def historyLoop (files : List FileRec) : Nat → Option Nat → List (Option Nat)
  | _, none => []
  | 0, some _ => []
  | fuel + 1, some pid =>
      (getFile files pid).parser :: historyLoop files fuel (getFile files pid).parent

/-- `FileObject.parser_history` (lines 89-101): `[self.parser]`, then
append each ancestor's parser walking `parent`, finally reversed. -/
def parserHistory (files : List FileRec) (fid : Nat) : List (Option Nat) :=
  ((getFile files fid).parser :: historyLoop files fid (getFile files fid).parent).reverse

/-- Number of `parent` links above a file: its tree depth from the
seed (spec vocabulary; same bounded walk as `parserHistory`). -/
def depthLoop (files : List FileRec) : Nat → Option Nat → Nat
  | _, none => 0
  | 0, some _ => 0
  | fuel + 1, some pid => 1 + depthLoop files fuel (getFile files pid).parent

/-- Tree depth of a file from the seed. -/
def depth (files : List FileRec) (fid : Nat) : Nat :=
  depthLoop files fid (getFile files fid).parent

/-- Arena well-formedness: a file's parent was created strictly before
it (ids are assigned in creation order by `add_to_queue`). -/
def parentLt (files : List FileRec) : Prop :=
  ∀ i, i < files.length → ∀ p, (getFile files i).parent = some p → p < i

/-- A parser class: its id (standing for the class object itself), its
`DESCRIPTION`, its `identify` classmethod, and the behaviour of
`parser_class(file_object, reporter, dispatcher).run()` as a function
of the file record and knowledge base at call time. -/
structure RunEffect where
  outcome : Outcome
  children : List FileRec
  kbWrites : List (String × String)

structure ParserClass where
  pid : Nat
  DESCRIPTION : String
  identify : FileRec → Bool
  run : FileRec → List (String × String) → RunEffect

/-- Dispatcher configuration (`__init__`, lines 286-312): parser list,
greedy flag and default parser class. -/
structure Dispatcher where
  parsers : List ParserClass
  greedy : Bool
  default : Option ParserClass

/-- `Dispatcher._identify_file` generator body (lines 345-366): collect
the parsers whose `identify` accepts the file; if none accepted
(`identified` stayed false), the debug message depends on whether a
description is set, and the default parser class — when configured —
is yielded. -/
def identifyLoop (parsers : List ParserClass) (fo : FileRec) (identified : Bool) :
    List ParserClass × Bool :=
  match parsers with
  | [] => ([], identified)
  | p :: rest =>
    if p.identify fo then
      let r := identifyLoop rest fo true
      (p :: r.1, r.2)
    else
      identifyLoop rest fo identified

/-- The full sequence yielded by one run of `_identify_file` on a file
the consumer does not mutate between yields. -/
def Dispatcher.identifyFile (d : Dispatcher) (fo : FileRec) : List ParserClass :=
  let r := identifyLoop d.parsers fo false
  if r.2 then r.1
  else
    match d.default with
    | some dft => r.1 ++ [dft]
    | none => r.1

/-- Mutable dispatcher state: the file arena, `_fifo_buffer` (head =
left end of the deque, i.e. the most recently appended id),
`_current_file_object`, `_current_parser_class`, `knowledge_base`, the
reporter, and the ghost log of `output()` invocations. -/
structure DState where
  files : List FileRec
  fifoBuffer : List Nat
  currentFileObject : Option Nat
  currentParserClass : Option Nat
  knowledgeBase : List (String × String)
  reporter : Reporter
  outputCalls : List Nat
  deriving DecidableEq, Repr

/-- `Dispatcher.add_to_queue` (lines 332-343): set the file's parent to
`_current_file_object` and `appendleft` it onto `_fifo_buffer`.  The
file is placed in the arena at the next free id. -/
def addToQueue (st : DState) (fo : FileRec) : DState :=
  { st with
    files := st.files ++ [{ fo with parent := st.currentFileObject }],
    fifoBuffer := st.files.length :: st.fifoBuffer }

/-- Update one arena slot. -/
def setFile (st : DState) (fid : Nat) (fo : FileRec) : DState :=
  { st with files := st.files.set fid fo }

/-- First half of `dispatch`'s per-parser iteration (lines 377-385):
record the current file object and parser class, set the file's
description from the parser's `DESCRIPTION` if it has none, and set
`file_object.parser`. -/
def preRun (st : DState) (fid : Nat) (p : ParserClass) : DState :=
  let st1 := { st with currentFileObject := some fid, currentParserClass := some p.pid }
  let fo := getFile st1.files fid
  setFile st1 fid
    { fo with
      description := if fo.description = none then some p.DESCRIPTION else fo.description,
      parser := some p.pid }

/-- The `run()` call itself: evaluate the parser's behaviour on the
file and knowledge base as they stand after `preRun`, and apply the
knowledge-base writes it performed. -/
def midRun (st : DState) (fid : Nat) (p : ParserClass) : DState × RunEffect :=
  let st2 := preRun st fid p
  let eff := p.run (getFile st2.files fid) st2.knowledgeBase
  ({ st2 with knowledgeBase := st2.knowledgeBase ++ eff.kbWrites }, eff)

/-- Full per-parser iteration body (lines 377-400): `preRun`, the
`run()` call with its knowledge-base writes (`midRun`), the children it
handed to `add_to_queue` before returning or raising, and the outcome
seen by the `try`/`except` blocks. -/
def runParserOn (st : DState) (fid : Nat) (p : ParserClass) : DState × Outcome :=
  let m := midRun st fid p
  (m.2.children.foldl addToQueue m.1, m.2.outcome)

/-- The `for parser_class in self._identify_file(file_object)` loop of
`dispatch` (lines 376-403), with the `_identify_file` generator inlined
so that each `identify` call sees the file as mutated so far:
* a parser whose `identify` rejects is skipped;
* a matching parser is run; on `UnableToParse` the loop `continue`s to
  the next parser, on any other outcome it `break`s unless greedy;
* when the parser list is exhausted without any match (`identified`
  stayed false), the default parser class, if any, is run — and the
  loop ends, whatever its outcome.
Returns the final state and the trace of `run` invocations, each as
`(parser id, outcome)`. -/
def dispatchLoop (d : Dispatcher) (fid : Nat) :
    List ParserClass → Bool → DState → DState × List (Nat × Outcome)
  | [], identified, st =>
    if identified then (st, [])
    else
      match d.default with
      | none => (st, [])
      | some dft =>
        let r := runParserOn st fid dft
        (r.1, [(dft.pid, r.2)])
  | p :: rest, identified, st =>
    if p.identify (getFile st.files fid) then
      let r := runParserOn st fid p
      if r.2 = Outcome.unableToParse ∨ d.greedy = true then
        let k := dispatchLoop d fid rest true r.1
        (k.1, (p.pid, r.2) :: k.2)
      else
        (r.1, [(p.pid, r.2)])
    else
      dispatchLoop d fid rest identified st

/-- One iteration of `dispatch`'s while-loop after the pop (lines
375-408): run the parser loop on the file, then call
`file_object.output()`.  The ghost `outputCalls` log records the
`output()` invocation. -/
def processFile (d : Dispatcher) (st : DState) (fid : Nat) : DState × List (Nat × Outcome) :=
  let r := dispatchLoop d fid d.parsers false st
  let fo := getFile r.1.files fid
  let o := FileObject.output fo r.1.reporter
  ({ setFile r.1 fid o.1 with reporter := o.2, outputCalls := fid :: r.1.outputCalls },
   r.2)

/-- `Dispatcher.dispatch` (lines 368-408): while `_fifo_buffer` is
nonempty, `pop()` the file at the right end (the oldest) and process
it.  The fuel argument bounds the number of iterations (parsers may
enqueue new files without bound, so the Python loop need not
terminate); the returned Bool is true when the queue was emptied, and
the returned list is the ids processed, in processing order. -/
def dispatch (d : Dispatcher) : Nat → DState → DState × List Nat × Bool
  | 0, st => (st, [], st.fifoBuffer.isEmpty)
  | fuel + 1, st =>
    match st.fifoBuffer.getLast? with
    | none => (st, [], true)
    | some fid =>
      let st1 := { st with fifoBuffer := st.fifoBuffer.dropLast }
      let pr := processFile d st1 fid
      let k := dispatch d fuel pr.1
      (k.1, fid :: k.2.1, k.2.2)

/-- Queue well-formedness: `_fifo_buffer` holds ids in strictly
decreasing order from the left (newest first, since `appendleft` adds
at the left and ids grow in enqueue order), all below the arena size. -/
def QueueInv (st : DState) : Prop :=
  st.fifoBuffer.Pairwise (fun a b => b < a) ∧
  ∀ x ∈ st.fifoBuffer, x < st.files.length

/-- The fields of a file record that the per-file parser loop never
writes (it only writes `description` and `parser` on the processed
file). -/
def core (fo : FileRec) : String × List Nat × Bool × Bool × Option Nat :=
  (fo.fileName, fo.fileData, fo.outputFile, fo.outputtedFile, fo.parent)

/-- An `identify` predicate that does not look at the mutable
`description`/`parser` fields, so that the set of matching parsers for
an artifact is well defined across the pass (the source docstring asks
exactly this of greedy-mode parsers). -/
def identStable (p : ParserClass) : Prop :=
  ∀ fo d₁ pr₁, p.identify { fo with description := d₁, parser := pr₁ } = p.identify fo

/-! ### Concrete instances used by witnesses and counterexamples -/

/-- A parser class that identifies everything, runs cleanly, and has no
side effects. -/
def exParserOk : ParserClass :=
  { pid := 2, DESCRIPTION := "Implant",
    identify := fun _ => true, run := fun _ _ => ⟨Outcome.ok, [], []⟩ }

/-- A parser class that identifies everything and always raises
`UnableToParse` from `run`. -/
def exParserMisid : ParserClass :=
  { pid := 1, DESCRIPTION := "Loader",
    identify := fun _ => true, run := fun _ _ => ⟨Outcome.unableToParse, [], []⟩ }

/-- A parser class that identifies everything and always raises an
ordinary exception from `run`. -/
def exParserFail : ParserClass :=
  { pid := 3, DESCRIPTION := "Broken",
    identify := fun _ => true, run := fun _ _ => ⟨Outcome.error, [], []⟩ }

/-- A default parser class in the style of `UnidentifiedFile`. -/
def exDefaultParser : ParserClass :=
  { pid := 99, DESCRIPTION := "Unidentified file",
    identify := fun _ => true, run := fun _ _ => ⟨Outcome.ok, [], []⟩ }

/-- A seed file record with no description. -/
def exSeed : FileRec :=
  { fileName := "seed", fileData := [77, 90], description := none,
    outputFile := true, outputtedFile := false, parent := none, parser := none }

/-- A file record whose description was already set before identification. -/
def exFileDescribed : FileRec := { exSeed with description := some "preset" }

/-- A reporter that has already output a file named `seed`. -/
def exReporterTaken : Reporter := { outputfiles := ["seed"], outputLog := [] }

/-- A reporter with no output files. -/
def exReporterEmpty : Reporter := { outputfiles := [], outputLog := [] }

/-- The empty dispatcher state. -/
def exState0 : DState :=
  { files := [], fifoBuffer := [], currentFileObject := none,
    currentParserClass := none, knowledgeBase := [],
    reporter := exReporterEmpty, outputCalls := [] }

/-- A two-file arena: a seed handled by parser 1 and a child handled by
parser 2. -/
def exChainFiles : List FileRec :=
  [ { exSeed with parser := some 1 },
    { exSeed with parent := some 0, parser := some 2 } ]

/-- Non-greedy dispatcher with a single clean parser. -/
def exDisp1 : Dispatcher :=
  { parsers := [exParserOk], greedy := false, default := some exDefaultParser }

/-- Non-greedy dispatcher whose first parser always raises
`UnableToParse` and whose second runs cleanly. -/
def exDisp2 : Dispatcher :=
  { parsers := [exParserMisid, exParserOk], greedy := false,
    default := some exDefaultParser }

/-- Greedy dispatcher with a mis-identifying, a failing and a clean
parser. -/
def exDispGreedy : Dispatcher :=
  { parsers := [exParserMisid, exParserFail, exParserOk], greedy := true,
    default := some exDefaultParser }

/-- Non-greedy dispatcher whose only parser always fails with an
ordinary error, and no default. -/
def exDispFail : Dispatcher :=
  { parsers := [exParserFail], greedy := false, default := none }

/-- State with just the seed enqueued. -/
def exStSeed : DState := addToQueue exState0 exSeed

/-- State with the seed and a second file enqueued (the second file
record reuses the seed bytes under another name). -/
def exStTwo : DState :=
  addToQueue exStSeed { exSeed with fileName := "other" }

/-! ### Output emission (claims C8, C10) -/

/-- C8 as stated is false: with the output flag set but the file name
already among the reporter's output files, two calls to `output()`
produce zero calls to `output_file`, not exactly one. -/
theorem c8_counterexample :
    exSeed.outputFile = true ∧
    (let o1 := FileObject.output exSeed exReporterTaken
     let o2 := FileObject.output o1.1 o1.2
     o2.2.outputLog.length = 0) := by
  decide

/-- C8 amended: for a file with the output flag set and not yet
outputted, two consecutive calls to `output()` make at most one call to
the sink, exactly one when the file name is not already among the
sink's output names, and once the first call emitted, the second is a
no-op. -/
theorem output_idempotent (fo : FileRec) (r : Reporter)
    (hflag : fo.outputFile = true) (hout : fo.outputtedFile = false) :
    (let o1 := FileObject.output fo r
     let o2 := FileObject.output o1.1 o1.2
     o2.2.outputLog.length ≤ r.outputLog.length + 1 ∧
     (fo.fileName ∉ r.outputfiles →
       o2.2.outputLog = (fo.fileData, fo.fileName, fo.description.getD "") :: r.outputLog) ∧
     (o1.1.outputtedFile = true → o2 = o1)) := by
  by_cases hm : fo.fileName ∈ r.outputfiles
  · simp [FileObject.output, hflag, hout, hm]
  · simp [FileObject.output, Reporter.output_file, hflag, hout, hm]

/-- Witness for `output_idempotent` at a fresh reporter. -/
theorem output_idempotent_witness :
    exSeed.outputFile = true ∧ exSeed.outputtedFile = false ∧
    (let o1 := FileObject.output exSeed exReporterEmpty
     let o2 := FileObject.output o1.1 o1.2
     o2.2.outputLog.length ≤ exReporterEmpty.outputLog.length + 1 ∧
     (exSeed.fileName ∉ exReporterEmpty.outputfiles →
       o2.2.outputLog =
         (exSeed.fileData, exSeed.fileName, exSeed.description.getD "") ::
           exReporterEmpty.outputLog) ∧
     (o1.1.outputtedFile = true → o2 = o1)) :=
  ⟨rfl, rfl, output_idempotent exSeed exReporterEmpty rfl rfl⟩

/-- C10: if the file name is already among the reporter's output files,
`output()` changes nothing — no `output_file` call, the outputted flag
stays false — and a later call against a reporter no longer holding the
name does emit. -/
theorem output_name_taken (fo : FileRec) (r : Reporter)
    (hflag : fo.outputFile = true) (hout : fo.outputtedFile = false)
    (hmem : fo.fileName ∈ r.outputfiles) :
    FileObject.output fo r = (fo, r) ∧
    (FileObject.output fo r).1.outputtedFile = false ∧
    (∀ r' : Reporter, fo.fileName ∉ r'.outputfiles →
      (FileObject.output fo r').1.outputtedFile = true ∧
      (FileObject.output fo r').2.outputLog =
        (fo.fileData, fo.fileName, fo.description.getD "") :: r'.outputLog) := by
  refine ⟨?_, ?_, ?_⟩
  · simp [FileObject.output, hflag, hout, hmem]
  · simp [FileObject.output, hflag, hout, hmem]
  · intro r' hmem'
    simp [FileObject.output, Reporter.output_file, hflag, hout, hmem']

/-- Witness for `output_name_taken`. -/
theorem output_name_taken_witness :
    exSeed.outputFile = true ∧ exSeed.outputtedFile = false ∧
    exSeed.fileName ∈ exReporterTaken.outputfiles ∧
    (FileObject.output exSeed exReporterTaken = (exSeed, exReporterTaken) ∧
     (FileObject.output exSeed exReporterTaken).1.outputtedFile = false ∧
     (∀ r' : Reporter, exSeed.fileName ∉ r'.outputfiles →
       (FileObject.output exSeed r').1.outputtedFile = true ∧
       (FileObject.output exSeed r').2.outputLog =
         (exSeed.fileData, exSeed.fileName, exSeed.description.getD "") :: r'.outputLog)) :=
  ⟨rfl, rfl, by decide, output_name_taken exSeed exReporterTaken rfl rfl (by decide)⟩

/-! ### Identification chain (claim C1) -/

/-- If no parser in the list identifies the file, `identifyLoop` yields
nothing and leaves the `identified` flag as it was. -/
theorem identifyLoop_nomatch (parsers : List ParserClass) (fo : FileRec)
    (idf : Bool) (h : ∀ p ∈ parsers, p.identify fo = false) :
    identifyLoop parsers fo idf = ([], idf) := by
  induction parsers with
  | nil => rfl
  | cons p rest ih =>
    have hp : p.identify fo = false := h p (by simp)
    simp only [identifyLoop, hp]
    exact ih fun q hq => h q (by simp [hq])

/-- C1 as stated is false: an artifact with a description already set,
no matching parser, and a configured default still has the default
yielded by `_identify_file` (the description check only gates a debug
message). -/
theorem c1_counterexample :
    (let d : Dispatcher := { parsers := [], greedy := false, default := some exDefaultParser }
     exFileDescribed.description ≠ none ∧
     (d.identifyFile exFileDescribed).map (fun p => p.pid) = [99]) := by
  constructor
  · decide
  · rfl

/-- C1 amended: whenever no registered parser identifies the file,
`_identify_file` yields the default parser class as its sole element
iff a default is configured — independently of whether the artifact
already has a description — and yields nothing when no default is
configured. -/
theorem identifyFile_default (d : Dispatcher) (fo : FileRec)
    (h : ∀ p ∈ d.parsers, p.identify fo = false) :
    d.identifyFile fo = d.default.toList := by
  unfold Dispatcher.identifyFile
  rw [identifyLoop_nomatch d.parsers fo false h]
  cases d.default <;> simp

/-- Witness for `identifyFile_default`: no parsers registered, a
described artifact, a configured default. -/
theorem identifyFile_default_witness :
    (let d : Dispatcher := { parsers := [], greedy := false, default := some exDefaultParser }
     d.identifyFile exFileDescribed = d.default.toList) :=
  identifyFile_default _ exFileDescribed (by simp)

/-! ### Parser history (claim C3) -/

/-- The history walk and the depth walk agree step for step. -/
theorem historyLoop_length (files : List FileRec) :
    ∀ fuel op, (historyLoop files fuel op).length = depthLoop files fuel op := by
  intro fuel
  induction fuel with
  | zero => intro op; cases op <;> rfl
  | succ n ih =>
    intro op
    cases op with
    | none => rfl
    | some pid => simp [historyLoop, depthLoop, ih, Nat.add_comm]

/-- Out-of-range arena slots hold the default record. -/
theorem getFile_out_of_range (files : List FileRec) (i : Nat)
    (h : files.length ≤ i) : getFile files i = dflFile := by
  simp [getFile, List.getElem?_eq_none h]

/-- Under `parentLt`, the history walk does not depend on the fuel as
long as the fuel exceeds the starting id. -/
theorem historyLoop_fuel (files : List FileRec) (h : parentLt files) :
    ∀ q fuel₁ fuel₂, q < fuel₁ → q < fuel₂ →
      historyLoop files fuel₁ (some q) = historyLoop files fuel₂ (some q) := by
  intro q
  induction q using Nat.strong_induction_on with
  | _ q ih =>
    intro fuel₁ fuel₂ h1 h2
    obtain ⟨a, rfl⟩ : ∃ a, fuel₁ = a + 1 := ⟨fuel₁ - 1, by omega⟩
    obtain ⟨b, rfl⟩ : ∃ b, fuel₂ = b + 1 := ⟨fuel₂ - 1, by omega⟩
    simp only [historyLoop]
    cases hq : (getFile files q).parent with
    | none => simp [historyLoop]
    | some q' =>
      have hql : q < files.length := by
        by_contra hge
        rw [getFile_out_of_range files q (by omega)] at hq
        simp [dflFile] at hq
      have hlt : q' < q := h q hql q' hq
      exact congrArg _ (ih q' hlt a b (by omega) (by omega))

/-- C3 as stated is false: a seed with no parent and no assigned
handler has `history()` of length 1, not 0 (the code always includes
`self.parser`, set or not). -/
theorem c3_counterexample :
    (getFile [exSeed] 0).parent = none ∧
    (getFile [exSeed] 0).parser = none ∧
    depth [exSeed] 0 = 0 ∧
    (parserHistory [exSeed] 0).length = 1 := by
  decide

/-- C3 amended: in a well-formed arena, `history()` lists the handlers
along the ancestor chain root-first and always includes the artifact's
own handler slot, so its length is the tree depth plus one; the seed's
history is the one-element list holding its own (possibly nil) handler. -/
theorem parserHistory_depth (files : List FileRec) (h : parentLt files) (fid : Nat) :
    (parserHistory files fid).length = depth files fid + 1 ∧
    ((getFile files fid).parent = none →
      parserHistory files fid = [(getFile files fid).parser]) ∧
    (∀ p, (getFile files fid).parent = some p →
      parserHistory files fid = parserHistory files p ++ [(getFile files fid).parser]) := by
  refine ⟨?_, ?_, ?_⟩
  · simp [parserHistory, depth, historyLoop_length, Nat.add_comm]
  · intro hp
    simp [parserHistory, hp, historyLoop]
  · intro p hp
    have hfl : fid < files.length := by
      by_contra hge
      rw [getFile_out_of_range files fid (by omega)] at hp
      simp [dflFile] at hp
    have hplt : p < fid := h fid hfl p hp
    obtain ⟨k, rfl⟩ : ∃ k, fid = k + 1 := ⟨fid - 1, by omega⟩
    simp only [parserHistory, hp, historyLoop]
    cases hpp : (getFile files p).parent with
    | none =>
      simp [historyLoop, List.reverse_cons]
    | some q =>
      have hpl : p < files.length := by
        by_contra hge
        rw [getFile_out_of_range files p (by omega)] at hpp
        simp [dflFile] at hpp
      have hqlt : q < p := h p hpl q hpp
      have hfl2 := historyLoop_fuel files h q k p (by omega) (by omega)
      rw [hfl2]
      simp [List.reverse_cons]

/-- Witness for `parserHistory_depth` on a two-file chain. -/
theorem parserHistory_depth_witness :
    ((parserHistory exChainFiles 1).length = depth exChainFiles 1 + 1 ∧
     ((getFile exChainFiles 1).parent = none →
       parserHistory exChainFiles 1 = [(getFile exChainFiles 1).parser]) ∧
     (∀ p, (getFile exChainFiles 1).parent = some p →
       parserHistory exChainFiles 1 = parserHistory exChainFiles p ++ [(getFile exChainFiles 1).parser])) :=
  parserHistory_depth exChainFiles
    (by
      intro i hi p hp
      simp [exChainFiles] at hi
      interval_cases i <;> simp_all [getFile, exChainFiles, exSeed]) 1

/-! ### Arena and queue bookkeeping lemmas -/

/-- Appending new files does not change existing arena slots. -/
theorem getFile_append (files l : List FileRec) (i : Nat) (h : i < files.length) :
    getFile (files ++ l) i = getFile files i := by
  simp [getFile, List.getElem?_append_left h]

/-- Writing an arena slot reads back. -/
theorem getFile_set (files : List FileRec) (i : Nat) (fo : FileRec)
    (h : i < files.length) : getFile (files.set i fo) i = fo := by
  simp [getFile, List.getElem?_set_eq h]

/-- Everything `add_to_queue` does, folded over a list of children:
`_current_file_object`, `_current_parser_class`, the ghost output log,
the reporter and the knowledge base are untouched; the arena only
grows; the old queue is a suffix of the new one; every new queue entry
is a fresh id; old arena slots keep their contents. -/
theorem foldl_addToQueue_facts (children : List FileRec) :
    ∀ st : DState,
      (children.foldl addToQueue st).currentFileObject = st.currentFileObject ∧
      (children.foldl addToQueue st).currentParserClass = st.currentParserClass ∧
      (children.foldl addToQueue st).outputCalls = st.outputCalls ∧
      (children.foldl addToQueue st).reporter = st.reporter ∧
      st.files.length ≤ (children.foldl addToQueue st).files.length ∧
      st.fifoBuffer.IsSuffix (children.foldl addToQueue st).fifoBuffer ∧
      (∀ x ∈ (children.foldl addToQueue st).fifoBuffer,
        x ∈ st.fifoBuffer ∨ st.files.length ≤ x) ∧
      (∀ i, i < st.files.length →
        getFile (children.foldl addToQueue st).files i = getFile st.files i) := by
  induction children with
  | nil =>
    intro st
    refine ⟨rfl, rfl, rfl, rfl, le_refl _, List.suffix_refl _, ?_, ?_⟩
    · intro x hx; exact Or.inl hx
    · intro i _; rfl
  | cons c rest ih =>
    intro st
    obtain ⟨h1, h2, h3, h4, h5, h6, h7, h8⟩ := ih (addToQueue st c)
    have hlen : (addToQueue st c).files.length = st.files.length + 1 := by
      simp [addToQueue]
    simp only [List.foldl_cons]
    refine ⟨h1, h2, h3, h4, ?_, ?_, ?_, ?_⟩
    · omega
    · exact List.IsSuffix.trans (by simp [addToQueue]) h6
    · intro x hx
      rcases h7 x hx with hx' | hx'
      · simp only [addToQueue, List.mem_cons] at hx'
        rcases hx' with rfl | hx'
        · exact Or.inr (le_refl _)
        · exact Or.inl hx'
      · exact Or.inr (by omega)
    · intro i hi
      rw [h8 i (by omega)]
      simp only [addToQueue]
      exact getFile_append st.files _ i hi

/-- Everything one `runParserOn` call does to the state besides the
file's own description/parser fields: sets `_current_file_object` to
the file, leaves the ghost output log and reporter alone, only grows
the arena and the queue (new queue entries being fresh ids). -/
theorem runParserOn_facts (st : DState) (fid : Nat) (p : ParserClass) :
    (runParserOn st fid p).1.currentFileObject = some fid ∧
    (runParserOn st fid p).1.outputCalls = st.outputCalls ∧
    (runParserOn st fid p).1.reporter = st.reporter ∧
    st.files.length ≤ (runParserOn st fid p).1.files.length ∧
    st.fifoBuffer.IsSuffix (runParserOn st fid p).1.fifoBuffer ∧
    (∀ x ∈ (runParserOn st fid p).1.fifoBuffer,
      x ∈ st.fifoBuffer ∨ st.files.length ≤ x) := by
  have m1 : (midRun st fid p).1.currentFileObject = some fid := by
    simp [midRun, preRun, setFile]
  have m3 : (midRun st fid p).1.outputCalls = st.outputCalls := by
    simp [midRun, preRun, setFile]
  have m4 : (midRun st fid p).1.reporter = st.reporter := by
    simp [midRun, preRun, setFile]
  have m5 : (midRun st fid p).1.files.length = st.files.length := by
    simp [midRun, preRun, setFile]
  have m6 : (midRun st fid p).1.fifoBuffer = st.fifoBuffer := by
    simp [midRun, preRun, setFile]
  obtain ⟨h1, h2, h3, h4, h5, h6, h7, h8⟩ :=
    foldl_addToQueue_facts (midRun st fid p).2.children (midRun st fid p).1
  simp only [runParserOn]
  refine ⟨h1.trans m1, h3.trans m3, h4.trans m4, ?_, ?_, ?_⟩
  · omega
  · rw [← m6]; exact h6
  · intro x hx
    rcases h7 x hx with hx' | hx'
    · exact Or.inl (m6 ▸ hx')
    · exact Or.inr (by omega)

/-- State bookkeeping across the whole per-file parser loop: the ghost
output log and reporter are untouched, the arena only grows, the old
queue is a suffix of the new one with only fresh ids added, and
`_current_file_object` is left alone when no parser ran but points at
the processed file as soon as at least one `run` was invoked — it is
never reset afterwards. -/
theorem dispatchLoop_facts (d : Dispatcher) (fid : Nat) :
    ∀ (ps : List ParserClass) (idf : Bool) (st : DState),
      (dispatchLoop d fid ps idf st).1.outputCalls = st.outputCalls ∧
      (dispatchLoop d fid ps idf st).1.reporter = st.reporter ∧
      st.files.length ≤ (dispatchLoop d fid ps idf st).1.files.length ∧
      st.fifoBuffer.IsSuffix (dispatchLoop d fid ps idf st).1.fifoBuffer ∧
      (∀ x ∈ (dispatchLoop d fid ps idf st).1.fifoBuffer,
        x ∈ st.fifoBuffer ∨ st.files.length ≤ x) ∧
      (dispatchLoop d fid ps idf st).1.currentFileObject =
        (if (dispatchLoop d fid ps idf st).2.isEmpty then st.currentFileObject
         else some fid) := by
  intro ps
  induction ps with
  | nil =>
    intro idf st
    by_cases hidf : idf
    · subst hidf
      simp only [dispatchLoop]
      exact ⟨rfl, rfl, le_refl _, List.suffix_refl _, fun x hx => Or.inl hx, rfl⟩
    · have hidf' : idf = false := by simpa using hidf
      subst hidf'
      simp only [dispatchLoop]
      cases hd : d.default with
      | none =>
        exact ⟨rfl, rfl, le_refl _, List.suffix_refl _, fun x hx => Or.inl hx, rfl⟩
      | some dft =>
        obtain ⟨h1, h2, h3, h4, h5, h6⟩ := runParserOn_facts st fid dft
        exact ⟨h2, h3, h4, h5, h6, by simpa using h1⟩
  | cons p rest ih =>
    intro idf st
    simp only [dispatchLoop]
    by_cases hid : p.identify (getFile st.files fid) = true
    · simp only [hid, if_true]
      obtain ⟨r1, r2, r3, r4, r5, r6⟩ := runParserOn_facts st fid p
      by_cases hc : (runParserOn st fid p).2 = Outcome.unableToParse ∨ d.greedy = true
      · simp only [hc, if_true]
        obtain ⟨k1, k2, k3, k4, k5, k6⟩ := ih true (runParserOn st fid p).1
        refine ⟨k1.trans r2, k2.trans r3, by omega, r5.trans k4, ?_, ?_⟩
        · intro x hx
          rcases k5 x hx with hx' | hx'
          · exact r6 x hx'
          · exact Or.inr (by omega)
        · simp only [List.isEmpty_cons]
          rw [k6]
          by_cases he : (dispatchLoop d fid rest true (runParserOn st fid p).1).2.isEmpty
          · simp [he, r1]
          · simp [he]
      · simp only [hc, if_false]
        exact ⟨r2, r3, r4, r5, r6, by simpa using r1⟩
    · have hid' : p.identify (getFile st.files fid) = false := by simpa using hid
      simp only [hid', Bool.false_eq_true, if_false]
      exact ih idf st

/-- State bookkeeping for processing one file end to end: the ghost
output log gains exactly this file, the arena only grows, the old queue
is a suffix of the new one with only fresh ids added, and when at least
one parser ran, `_current_file_object` is left pointing at this file. -/
theorem processFile_facts (d : Dispatcher) (st : DState) (fid : Nat) :
    (processFile d st fid).1.outputCalls = fid :: st.outputCalls ∧
    st.files.length ≤ (processFile d st fid).1.files.length ∧
    st.fifoBuffer.IsSuffix (processFile d st fid).1.fifoBuffer ∧
    (∀ x ∈ (processFile d st fid).1.fifoBuffer,
      x ∈ st.fifoBuffer ∨ st.files.length ≤ x) ∧
    ((processFile d st fid).2 ≠ [] →
      (processFile d st fid).1.currentFileObject = some fid) := by
  obtain ⟨h1, h2, h3, h4, h5, h6⟩ := dispatchLoop_facts d fid d.parsers false st
  simp only [processFile, setFile]
  refine ⟨by rw [h1], by simpa using h3, by simpa using h4, by simpa using h5, ?_⟩
  intro hne
  have : ¬ (dispatchLoop d fid d.parsers false st).2.isEmpty := by
    simpa [List.isEmpty_iff] using hne
  simpa [this] using h6

/-! ### Parent linking and the currently-processing reference (claim C4) -/

/-- C4 as stated is false: after a run has completed (queue drained, no
artifact in progress), `_current_file_object` still holds the last
processed artifact, so a file enqueued outside of handler execution
gets that artifact — not nil — as parent. -/
theorem c4_counterexample :
    (dispatch exDisp1 1 exStSeed).1.fifoBuffer = [] ∧
    (getFile (addToQueue (dispatch exDisp1 1 exStSeed).1 exSeed).files 1).parent
      = some 0 := by
  constructor
  · rfl
  · rfl

/-- C4 amended: `add_to_queue` sets the enqueued artifact's parent to
`_current_file_object` (nil before any descriptor has ever run, hence
nil for the seed); but once at least one descriptor ran for an
artifact, the reference is left pointing at that artifact after its
descriptor loop — it is never cleared back to the artifact's own
parent — so later enqueues outside handler execution inherit it. -/
theorem addToQueue_parent (st : DState) (fo : FileRec) (d : Dispatcher) (fid : Nat) :
    (getFile (addToQueue st fo).files st.files.length).parent = st.currentFileObject ∧
    (addToQueue st fo).fifoBuffer = st.files.length :: st.fifoBuffer ∧
    ((processFile d st fid).2 ≠ [] →
      (processFile d st fid).1.currentFileObject = some fid) := by
  refine ⟨?_, rfl, (processFile_facts d st fid).2.2.2.2⟩
  simp [addToQueue, getFile, List.getElem?_concat_length]

/-- Witness for `addToQueue_parent`: the seed gets a nil parent, and
after processing it (one parser ran) the currently-processing
reference stays on the seed. -/
theorem addToQueue_parent_witness :
    (getFile (addToQueue exState0 exSeed).files exState0.files.length).parent
        = exState0.currentFileObject ∧
    (addToQueue exState0 exSeed).fifoBuffer
        = exState0.files.length :: exState0.fifoBuffer ∧
    (processFile exDisp1 exStSeed 0).2 ≠ [] ∧
    (processFile exDisp1 exStSeed 0).1.currentFileObject = some 0 :=
  ⟨(addToQueue_parent exState0 exSeed exDisp1 0).1,
   (addToQueue_parent exState0 exSeed exDisp1 0).2.1,
   by decide,
   (addToQueue_parent exStSeed exSeed exDisp1 0).2.2 (by decide)⟩

/-! ### Non-greedy execution (claim C2) -/

/-- C2 as stated is false: in non-greedy mode, a first matching parser
that raises `UnableToParse` is followed by the second matching parser,
so two execute routines are invoked for the same artifact. -/
theorem c2_counterexample :
    exDisp2.greedy = false ∧
    (processFile exDisp2 exStSeed 0).2.map Prod.fst = [1, 2] := by
  constructor
  · rfl
  · rfl

/-- In non-greedy mode every `run` invocation but the last raises
`UnableToParse`, for any parser list, `identified` flag and state. -/
theorem dispatchLoop_nongreedy (d : Dispatcher) (hg : d.greedy = false) (fid : Nat) :
    ∀ (ps : List ParserClass) (idf : Bool) (st : DState),
      ((dispatchLoop d fid ps idf st).2.dropLast).all
        (fun e => e.2 == Outcome.unableToParse) = true := by
  intro ps
  induction ps with
  | nil =>
    intro idf st
    by_cases hidf : idf
    · subst hidf; simp [dispatchLoop]
    · have hidf' : idf = false := by simpa using hidf
      subst hidf'
      simp only [dispatchLoop]
      cases d.default <;> simp
  | cons p rest ih =>
    intro idf st
    simp only [dispatchLoop]
    by_cases hid : p.identify (getFile st.files fid) = true
    · simp only [hid, if_true]
      by_cases hc : (runParserOn st fid p).2 = Outcome.unableToParse ∨ d.greedy = true
      · have hmis : (runParserOn st fid p).2 = Outcome.unableToParse := by
          rcases hc with h | h
          · exact h
          · rw [hg] at h; exact absurd h (by simp)
        simp only [hc, if_true]
        cases htl : (dispatchLoop d fid rest true (runParserOn st fid p).1).2 with
        | nil => simp
        | cons a tl =>
          have := ih true (runParserOn st fid p).1
          rw [htl] at this
          rw [show ((p.pid, (runParserOn st fid p).2) :: a :: tl).dropLast
                = (p.pid, (runParserOn st fid p).2) :: (a :: tl).dropLast from rfl]
          simp only [List.all_cons, hmis]
          simpa using this
      · simp only [hc, if_false]
        simp
    · have hid' : p.identify (getFile st.files fid) = false := by simpa using hid
      simp only [hid', Bool.false_eq_true, if_false]
      exact ih idf st

/-- C2 amended: in non-greedy mode, at most one execute invocation per
artifact has an outcome other than the mis-identification signal —
every invocation before the last raised `UnableToParse`, so execution
stops at the first descriptor that succeeds or fails with an ordinary
error, and only mis-identification causes the next matching descriptor
(or the default) to be invoked as well. -/
theorem nongreedy_single_execute (d : Dispatcher) (st : DState) (fid : Nat)
    (hg : d.greedy = false) :
    ((processFile d st fid).2.dropLast).all
      (fun e => e.2 == Outcome.unableToParse) = true ∧
    (processFile d st fid).2.countP
      (fun e => !(e.2 == Outcome.unableToParse)) ≤ 1 := by
  have hall := dispatchLoop_nongreedy d hg fid d.parsers false st
  have htr : (processFile d st fid).2 = (dispatchLoop d fid d.parsers false st).2 := by
    simp [processFile]
  rw [htr]
  refine ⟨hall, ?_⟩
  cases htl : (dispatchLoop d fid d.parsers false st).2 using List.reverseRecOn with
  | nil => simp
  | append_singleton l a =>
    rw [htl] at hall
    simp only [List.dropLast_concat] at hall
    rw [List.countP_append]
    have hz : l.countP (fun e => !(e.2 == Outcome.unableToParse)) = 0 := by
      rw [List.countP_eq_zero]
      intro e he
      have := List.all_eq_true.mp hall e he
      simpa using this
    have : (List.countP (fun e => !(e.2 == Outcome.unableToParse)) [a]) ≤ 1 := by
      by_cases h : a.2 = Outcome.unableToParse <;> simp [List.countP_cons, h]
    omega

/-- Witness for `nongreedy_single_execute` on the mis-identify-then-ok
dispatcher. -/
theorem nongreedy_single_execute_witness :
    exDisp2.greedy = false ∧
    (((processFile exDisp2 exStSeed 0).2.dropLast).all
      (fun e => e.2 == Outcome.unableToParse) = true ∧
     (processFile exDisp2 exStSeed 0).2.countP
      (fun e => !(e.2 == Outcome.unableToParse)) ≤ 1) :=
  ⟨rfl, nongreedy_single_execute exDisp2 exStSeed 0 rfl⟩

/-! ### FIFO queue discipline (claim C6) -/

/-- `add_to_queue` preserves queue well-formedness: the fresh id is
larger than everything pending. -/
theorem queueInv_addToQueue (st : DState) (fo : FileRec) (h : QueueInv st) :
    QueueInv (addToQueue st fo) := by
  obtain ⟨hp, hb⟩ := h
  constructor
  · simp only [addToQueue]
    exact List.pairwise_cons.mpr ⟨fun b hbq => hb b hbq, hp⟩
  · intro x hx
    have hlen : (addToQueue st fo).files.length = st.files.length + 1 := by
      simp [addToQueue]
    simp only [addToQueue, List.mem_cons] at hx
    rw [hlen]
    rcases hx with rfl | hx
    · omega
    · have := hb x hx; omega

/-- Folded `add_to_queue` preserves queue well-formedness. -/
theorem queueInv_foldl (children : List FileRec) :
    ∀ st : DState, QueueInv st → QueueInv (children.foldl addToQueue st) := by
  induction children with
  | nil => intro st h; exact h
  | cons c rest ih =>
    intro st h
    simp only [List.foldl_cons]
    exact ih _ (queueInv_addToQueue st c h)

/-- One parser execution preserves queue well-formedness. -/
theorem queueInv_runParserOn (st : DState) (fid : Nat) (p : ParserClass)
    (h : QueueInv st) : QueueInv (runParserOn st fid p).1 := by
  have hmid : QueueInv (midRun st fid p).1 := by
    obtain ⟨hp, hb⟩ := h
    constructor
    · have : (midRun st fid p).1.fifoBuffer = st.fifoBuffer := by
        simp [midRun, preRun, setFile]
      rw [this]; exact hp
    · intro x hx
      have h1 : (midRun st fid p).1.fifoBuffer = st.fifoBuffer := by
        simp [midRun, preRun, setFile]
      have h2 : (midRun st fid p).1.files.length = st.files.length := by
        simp [midRun, preRun, setFile]
      rw [h2]; exact hb x (h1 ▸ hx)
  simpa only [runParserOn] using
    queueInv_foldl (midRun st fid p).2.children (midRun st fid p).1 hmid

/-- The whole per-file parser loop preserves queue well-formedness. -/
theorem queueInv_dispatchLoop (d : Dispatcher) (fid : Nat) :
    ∀ (ps : List ParserClass) (idf : Bool) (st : DState),
      QueueInv st → QueueInv (dispatchLoop d fid ps idf st).1 := by
  intro ps
  induction ps with
  | nil =>
    intro idf st h
    by_cases hidf : idf
    · subst hidf; simpa [dispatchLoop] using h
    · have hidf' : idf = false := by simpa using hidf
      subst hidf'
      simp only [dispatchLoop]
      cases d.default with
      | none => simpa using h
      | some dft => exact queueInv_runParserOn st fid dft h
  | cons p rest ih =>
    intro idf st h
    simp only [dispatchLoop]
    by_cases hid : p.identify (getFile st.files fid) = true
    · simp only [hid, if_true]
      by_cases hc : (runParserOn st fid p).2 = Outcome.unableToParse ∨ d.greedy = true
      · simp only [hc, if_true]
        exact ih true _ (queueInv_runParserOn st fid p h)
      · simp only [hc, if_false]
        exact queueInv_runParserOn st fid p h
    · have hid' : p.identify (getFile st.files fid) = false := by simpa using hid
      simp only [hid', Bool.false_eq_true, if_false]
      exact ih idf st h

/-- Processing one file preserves queue well-formedness. -/
theorem queueInv_processFile (d : Dispatcher) (st : DState) (fid : Nat)
    (h : QueueInv st) : QueueInv (processFile d st fid).1 := by
  obtain ⟨hp, hb⟩ := queueInv_dispatchLoop d fid d.parsers false st h
  constructor
  · simpa [processFile, setFile] using hp
  · intro x hx
    have := hb x (by simpa [processFile, setFile] using hx)
    simpa [processFile, setFile] using this

/-- In a strictly decreasing list the last element is minimal. -/
theorem pairwise_getLast_le (l : List Nat) (h : l.Pairwise (fun a b => b < a)) :
    ∀ x, l.getLast? = some x → ∀ b ∈ l, x ≤ b := by
  induction l with
  | nil => intro x hx; simp at hx
  | cons a t ih =>
    intro x hx b hb
    cases t with
    | nil =>
      simp at hx hb
      omega
    | cons c u =>
      rw [List.getLast?_cons_cons] at hx
      obtain ⟨ha, hpt⟩ := List.pairwise_cons.mp h
      have hxs := ih hpt x hx
      rcases List.mem_cons.mp hb with rfl | hb'
      · have hxm : x ∈ c :: u := List.mem_of_mem_getLast? hx
        have := ha x hxm
        omega
      · exact hxs b hb'

/-- Dropping the popped element preserves queue well-formedness. -/
theorem queueInv_dropLast (st : DState) (h : QueueInv st) :
    QueueInv { st with fifoBuffer := st.fifoBuffer.dropLast } := by
  obtain ⟨hp, hb⟩ := h
  exact ⟨hp.sublist (List.dropLast_sublist _),
         fun x hx => hb x ((List.dropLast_sublist _).mem hx)⟩

/-- C6: the traversal queue is FIFO.  Queue well-formedness (pending
ids strictly decreasing from the newest end) is preserved by enqueues,
by processing a file (which may enqueue children at the newest end) and
by popping; and `pop()` always removes the pending artifact with the
smallest id — the earliest enqueued — so if B was enqueued strictly
before C and both are pending, C is never dequeued while B waits. -/
theorem fifo_queue (d : Dispatcher) (st : DState) (h : QueueInv st) :
    (∀ fo, QueueInv (addToQueue st fo)) ∧
    (∀ fid, QueueInv (processFile d st fid).1) ∧
    QueueInv { st with fifoBuffer := st.fifoBuffer.dropLast } ∧
    (∀ b c x, b ∈ st.fifoBuffer → c ∈ st.fifoBuffer → b < c →
      st.fifoBuffer.getLast? = some x → x ≤ b ∧ x ≠ c) := by
  refine ⟨fun fo => queueInv_addToQueue st fo h,
          fun fid => queueInv_processFile d st fid h,
          queueInv_dropLast st h, ?_⟩
  intro b c x hb hc hbc hx
  have hle := pairwise_getLast_le st.fifoBuffer h.1 x hx
  have h1 := hle b hb
  have h2 : x ≠ c := by
    intro hxe
    subst hxe
    omega
  exact ⟨h1, h2⟩

/-- Witness for `fifo_queue` on the two-element queue `[1, 0]`:
id 0 was enqueued first and is popped first. -/
theorem fifo_queue_witness :
    QueueInv exStTwo ∧
    QueueInv (addToQueue exStTwo exSeed) ∧
    QueueInv (processFile exDisp1 exStTwo 0).1 ∧
    QueueInv { exStTwo with fifoBuffer := exStTwo.fifoBuffer.dropLast } ∧
    (0 ≤ 0 ∧ (0 : Nat) ≠ 1) :=
  have h : QueueInv exStTwo := by
    constructor
    · decide
    · decide
  ⟨h, (fifo_queue exDisp1 exStTwo h).1 exSeed,
   (fifo_queue exDisp1 exStTwo h).2.1 0,
   (fifo_queue exDisp1 exStTwo h).2.2.1,
   (fifo_queue exDisp1 exStTwo h).2.2.2 0 1 0 (by decide) (by decide) (by decide) (by decide)⟩

/-! ### Failure isolation across the run (claim C5) -/

/-- Drain bookkeeping for `dispatch`: whenever the run reports the
queue drained, the final queue is empty, every initially pending
artifact was processed, and the ghost output log shows `output()` was
invoked exactly once for each processed artifact, in processing order
— all of this for arbitrary parser behaviours, including ones whose
every `run` raises. -/
theorem dispatch_facts (d : Dispatcher) :
    ∀ (fuel : Nat) (st : DState),
      (dispatch d fuel st).2.2 = true →
      (dispatch d fuel st).1.fifoBuffer = [] ∧
      (∀ x ∈ st.fifoBuffer, x ∈ (dispatch d fuel st).2.1) ∧
      (dispatch d fuel st).1.outputCalls
        = (dispatch d fuel st).2.1.reverse ++ st.outputCalls := by
  intro fuel
  induction fuel with
  | zero =>
    intro st hdr
    simp only [dispatch] at hdr ⊢
    have he : st.fifoBuffer = [] := by simpa [List.isEmpty_iff] using hdr
    refine ⟨he, ?_, by simp⟩
    intro x hx
    rw [he] at hx
    cases hx
  | succ n ih =>
    intro st hdr
    simp only [dispatch] at hdr ⊢
    cases hq : st.fifoBuffer.getLast? with
    | none =>
      rw [hq] at hdr
      dsimp only at hdr ⊢
      have he : st.fifoBuffer = [] := by
        cases hfb : st.fifoBuffer with
        | nil => rfl
        | cons a t => rw [hfb] at hq; simp [List.getLast?] at hq
      refine ⟨he, ?_, by simp⟩
      intro x hx
      rw [he] at hx
      cases hx
    | some fid =>
      rw [hq] at hdr
      dsimp only at hdr ⊢
      have hsplit : st.fifoBuffer.dropLast ++ [fid] = st.fifoBuffer :=
        List.dropLast_append_getLast? fid hq
      obtain ⟨ih1, ih2, ih3⟩ := ih
        (processFile d { st with fifoBuffer := st.fifoBuffer.dropLast } fid).1 hdr
      obtain ⟨pf1, pf2, pf3, pf4, pf5⟩ :=
        processFile_facts d { st with fifoBuffer := st.fifoBuffer.dropLast } fid
      refine ⟨ih1, ?_, ?_⟩
      · intro x hx
        have hx' : x ∈ st.fifoBuffer.dropLast ++ [fid] := by rw [hsplit]; exact hx
        rcases List.mem_append.mp hx' with hxd | hxf
        · have : x ∈ (processFile d
              { st with fifoBuffer := st.fifoBuffer.dropLast } fid).1.fifoBuffer :=
            pf3.subset hxd
          exact List.mem_cons_of_mem _ (ih2 x this)
        · simp at hxf
          subst hxf
          exact List.mem_cons_self _ _
      · rw [ih3, pf1]
        simp [List.append_assoc]

/-- C5: no artifact's or handler's failure aborts the run.  The theorem
quantifies over every dispatcher — in particular over parser sets whose
every `run` raises an ordinary exception or `UnableToParse` — and shows
that whenever the loop reports the queue drained, the final queue is
empty, every artifact pending at the start was processed, and
`output()` was invoked exactly once for every processed artifact, right
after its descriptor loop, in processing order. -/
theorem dispatch_no_abort (d : Dispatcher) (fuel : Nat) (st : DState)
    (h : (dispatch d fuel st).2.2 = true) :
    (dispatch d fuel st).1.fifoBuffer = [] ∧
    (∀ x ∈ st.fifoBuffer, x ∈ (dispatch d fuel st).2.1) ∧
    (dispatch d fuel st).1.outputCalls
      = (dispatch d fuel st).2.1.reverse ++ st.outputCalls :=
  dispatch_facts d fuel st h

/-- Witness for `dispatch_no_abort`: two queued artifacts, a single
parser that always fails with an ordinary error and no default — the
run still drains both and invokes `output()` on each. -/
theorem dispatch_no_abort_witness :
    (dispatch exDispFail 3 exStTwo).2.2 = true ∧
    ((dispatch exDispFail 3 exStTwo).1.fifoBuffer = [] ∧
     (∀ x ∈ exStTwo.fifoBuffer, x ∈ (dispatch exDispFail 3 exStTwo).2.1) ∧
     (dispatch exDispFail 3 exStTwo).1.outputCalls
       = (dispatch exDispFail 3 exStTwo).2.1.reverse ++ exStTwo.outputCalls) :=
  ⟨by decide, dispatch_no_abort exDispFail 3 exStTwo (by decide)⟩

/-! ### Mis-identification retry (claim C7) -/

/-- What one parser execution writes to the processed file itself:
only the description fallback and the `parser` field. -/
theorem runParserOn_getFile (st : DState) (fid : Nat) (p : ParserClass)
    (h : fid < st.files.length) :
    getFile (runParserOn st fid p).1.files fid =
      { getFile st.files fid with
        description := if (getFile st.files fid).description = none
                       then some p.DESCRIPTION else (getFile st.files fid).description,
        parser := some p.pid } ∧
    fid < (runParserOn st fid p).1.files.length := by
  have hmidlen : (midRun st fid p).1.files.length = st.files.length := by
    simp [midRun, preRun, setFile]
  have hmidget : getFile (midRun st fid p).1.files fid =
      { getFile st.files fid with
        description := if (getFile st.files fid).description = none
                       then some p.DESCRIPTION else (getFile st.files fid).description,
        parser := some p.pid } := by
    simp only [midRun, preRun, setFile]
    exact getFile_set st.files fid _ h
  obtain ⟨f1, f2, f3, f4, f5, f6, f7, f8⟩ :=
    foldl_addToQueue_facts (midRun st fid p).2.children (midRun st fid p).1
  constructor
  · simp only [runParserOn]
    rw [f8 fid (by omega), hmidget]
  · simp only [runParserOn]
    omega

/-- `output()` never touches the description or parser fields. -/
theorem output_preserves_meta (fo : FileRec) (r : Reporter) :
    (FileObject.output fo r).1.description = fo.description ∧
    (FileObject.output fo r).1.parser = fo.parser := by
  unfold FileObject.output
  split
  · split
    · exact ⟨rfl, rfl⟩
    · exact ⟨rfl, rfl⟩
  · exact ⟨rfl, rfl⟩

/-- C7: when the first matching descriptor's execute raises the
mis-identification signal, the next matching descriptor is executed on
the same artifact within the same pass; the artifact is not re-enqueued
(its id never reappears in the queue), the queue is not reverted (the
old queue survives as a suffix), and the description the failed pass
set from the first descriptor's label is not rolled back. -/
theorem misid_retry (d : Dispatcher) (st : DState) (fid : Nat) (p1 p2 : ParserClass)
    (hps : d.parsers = [p1, p2])
    (h1 : p1.identify (getFile st.files fid) = true)
    (h2 : ∀ fo, p2.identify fo = true)
    (hmis : ∀ fo kb, (p1.run fo kb).outcome = Outcome.unableToParse)
    (hdesc : (getFile st.files fid).description = none)
    (hfid : fid < st.files.length)
    (hnq : fid ∉ st.fifoBuffer) :
    (processFile d st fid).2.map Prod.fst = [p1.pid, p2.pid] ∧
    (getFile (processFile d st fid).1.files fid).description = some p1.DESCRIPTION ∧
    fid ∉ (processFile d st fid).1.fifoBuffer ∧
    st.fifoBuffer.IsSuffix (processFile d st fid).1.fifoBuffer := by
  have hr1out : (runParserOn st fid p1).2 = Outcome.unableToParse := by
    simp only [runParserOn, midRun]
    exact hmis _ _
  obtain ⟨hg1, hlt1⟩ := runParserOn_getFile st fid p1 hfid
  have hd1 : (getFile (runParserOn st fid p1).1.files fid).description
      = some p1.DESCRIPTION := by
    rw [hg1]; simp [hdesc]
  obtain ⟨hg2, hlt2⟩ := runParserOn_getFile (runParserOn st fid p1).1 fid p2 hlt1
  have hd2 : (getFile (runParserOn (runParserOn st fid p1).1 fid p2).1.files fid).description
      = some p1.DESCRIPTION := by
    rw [hg2]
    simp [hd1]
  have hloop : dispatchLoop d fid d.parsers false st
      = ((runParserOn (runParserOn st fid p1).1 fid p2).1,
         [(p1.pid, Outcome.unableToParse),
          (p2.pid, (runParserOn (runParserOn st fid p1).1 fid p2).2)]) := by
    rw [hps]
    simp only [dispatchLoop, h1, if_true]
    rw [if_pos (Or.inl hr1out)]
    simp [h2, hr1out, ite_self]
  obtain ⟨l1, l2, l3, l4, l5, l6⟩ := dispatchLoop_facts d fid d.parsers false st
  have hfifo : (processFile d st fid).1.fifoBuffer
      = (dispatchLoop d fid d.parsers false st).1.fifoBuffer := by
    simp [processFile, setFile]
  refine ⟨?_, ?_, ?_, ?_⟩
  · have : (processFile d st fid).2 = (dispatchLoop d fid d.parsers false st).2 := by
      simp [processFile]
    rw [this, hloop]
    simp
  · have hfiles : (processFile d st fid).1.files
        = (dispatchLoop d fid d.parsers false st).1.files.set fid
            (FileObject.output
              (getFile (dispatchLoop d fid d.parsers false st).1.files fid)
              (dispatchLoop d fid d.parsers false st).1.reporter).1 := by
      simp [processFile, setFile]
    rw [hfiles, hloop]
    rw [getFile_set _ _ _ hlt2]
    rw [(output_preserves_meta _ _).1]
    exact hd2
  · rw [hfifo]
    intro hmem
    rcases l5 fid hmem with hx | hx
    · exact hnq hx
    · omega
  · rw [hfifo]
    exact l4

/-- Witness for `misid_retry`: the seed, popped from the queue, first
hits the mis-identifying parser and then the clean one. -/
theorem misid_retry_witness :
    ((processFile exDisp2 { exStSeed with fifoBuffer := [] } 0).2.map Prod.fst
        = [exParserMisid.pid, exParserOk.pid] ∧
     (getFile (processFile exDisp2 { exStSeed with fifoBuffer := [] } 0).1.files
        0).description = some exParserMisid.DESCRIPTION ∧
     0 ∉ (processFile exDisp2 { exStSeed with fifoBuffer := [] } 0).1.fifoBuffer ∧
     ({ exStSeed with fifoBuffer := [] } : DState).fifoBuffer.IsSuffix
        (processFile exDisp2 { exStSeed with fifoBuffer := [] } 0).1.fifoBuffer) :=
  misid_retry exDisp2 { exStSeed with fifoBuffer := [] } 0 exParserMisid exParserOk
    rfl rfl (fun _ => rfl) (fun _ _ => rfl) (by decide) (by decide) (by decide)

/-! ### Greedy execution (claim C9) -/

/-- A stable `identify` predicate gives the same verdict on two records
that differ only in `description`/`parser`. -/
theorem identify_congr (p : ParserClass) (hp : identStable p) (fo fo' : FileRec)
    (h : core fo' = core fo) : p.identify fo' = p.identify fo := by
  have he : fo' = { fo with description := fo'.description, parser := fo'.parser } := by
    cases fo
    cases fo'
    simp only [core, Prod.mk.injEq] at h
    obtain ⟨h1, h2, h3, h4, h5⟩ := h
    simp_all
  rw [he]
  exact hp fo fo'.description fo'.parser

/-- One parser execution only writes `description`/`parser` on the
processed file: its `core` is unchanged. -/
theorem runParserOn_core (st : DState) (fid : Nat) (p : ParserClass)
    (h : fid < st.files.length) :
    core (getFile (runParserOn st fid p).1.files fid) = core (getFile st.files fid) ∧
    fid < (runParserOn st fid p).1.files.length := by
  obtain ⟨hg, hlt⟩ := runParserOn_getFile st fid p h
  refine ⟨?_, hlt⟩
  rw [hg]
  simp [core]

/-- In greedy mode the loop runs every matching parser in registration
order, whatever the outcomes, and falls back to the default exactly
when nothing matched and nothing had matched before. -/
theorem dispatchLoop_greedy (d : Dispatcher) (hg : d.greedy = true) (fid : Nat) :
    ∀ (ps : List ParserClass) (idf : Bool) (st : DState) (fo₀ : FileRec),
      (∀ p ∈ ps, identStable p) →
      fid < st.files.length →
      core (getFile st.files fid) = core fo₀ →
      (dispatchLoop d fid ps idf st).2.map Prod.fst =
        (ps.filter (fun p => p.identify fo₀)).map ParserClass.pid ++
        (if (ps.filter (fun p => p.identify fo₀)).isEmpty ∧ idf = false then
           (match d.default with | some dft => [dft.pid] | none => [])
         else []) := by
  intro ps
  induction ps with
  | nil =>
    intro idf st fo₀ _ _ _
    by_cases hidf : idf
    · subst hidf
      simp [dispatchLoop]
    · have hidf' : idf = false := by simpa using hidf
      subst hidf'
      simp only [dispatchLoop]
      cases d.default with
      | none => simp
      | some dft => simp
  | cons p rest ih =>
    intro idf st fo₀ hstab hlen hcore
    have hpid : p.identify (getFile st.files fid) = p.identify fo₀ :=
      identify_congr p (hstab p (by simp)) fo₀ _ hcore
    simp only [dispatchLoop]
    by_cases hid : p.identify fo₀ = true
    · have hid' : p.identify (getFile st.files fid) = true := by rw [hpid]; exact hid
      simp only [hid', if_true]
      rw [if_pos (Or.inr hg)]
      obtain ⟨hc2, hlt2⟩ := runParserOn_core st fid p hlen
      have hrest := ih true (runParserOn st fid p).1 fo₀
        (fun q hq => hstab q (by simp [hq])) hlt2 (hc2.trans hcore)
      simp only [List.map_cons, hrest, List.filter_cons, hid, if_true]
      simp
    · have hidf : p.identify fo₀ = false := by simpa using hid
      have hid' : p.identify (getFile st.files fid) = false := by rw [hpid]; exact hidf
      simp only [hid', Bool.false_eq_true, if_false]
      rw [ih idf st fo₀ (fun q hq => hstab q (by simp [hq])) hlen hcore]
      simp [List.filter_cons, hidf]

/-- C9: in greedy mode, every matching descriptor's execute runs for a
processed artifact, in registration order, regardless of the success,
failure or mis-identification of earlier descriptors (the trace lists
exactly the matching parsers, falling back to the default only when
none matched).  Stability of `identify` under the loop's own
description/parser writes makes "matching" well defined. -/
theorem greedy_all_matching (d : Dispatcher) (st : DState) (fid : Nat)
    (hg : d.greedy = true) (hstab : ∀ p ∈ d.parsers, identStable p)
    (hfid : fid < st.files.length) :
    (processFile d st fid).2.map Prod.fst =
      (d.parsers.filter (fun p => p.identify (getFile st.files fid))).map
        ParserClass.pid ++
      (if (d.parsers.filter (fun p => p.identify (getFile st.files fid))).isEmpty then
         (match d.default with | some dft => [dft.pid] | none => [])
       else []) := by
  have h := dispatchLoop_greedy d hg fid d.parsers false st (getFile st.files fid)
    hstab hfid rfl
  have htr : (processFile d st fid).2 = (dispatchLoop d fid d.parsers false st).2 := by
    simp [processFile]
  rw [htr, h]
  simp

/-- Witness for `greedy_all_matching`: greedy dispatcher whose three
parsers mis-identify, fail and succeed — all three run, in order. -/
theorem greedy_all_matching_witness :
    (processFile exDispGreedy exStSeed 0).2.map Prod.fst =
      (exDispGreedy.parsers.filter
        (fun p => p.identify (getFile exStSeed.files 0))).map ParserClass.pid ++
      (if (exDispGreedy.parsers.filter
            (fun p => p.identify (getFile exStSeed.files 0))).isEmpty then
         (match exDispGreedy.default with | some dft => [dft.pid] | none => [])
       else []) :=
  greedy_all_matching exDispGreedy exStSeed 0 rfl
    (by
      intro p hp
      simp only [exDispGreedy, List.mem_cons, List.not_mem_nil, or_false] at hp
      rcases hp with rfl | rfl | rfl <;> intro fo d₁ pr₁ <;> rfl)
    (by decide)
